import Mathlib

/-!
Verification of the conversation context-window manager.

The repository contains three near-identical copies of the same routine:
`ChatbotManager.manage_context` in
`monorepo/simple_streamlit_multimodal/chatbot/logic.py` and
`monorepo/simple_chat_memory_streamlit/chatbot/logic.py`, and
`check_and_manage_context` in
`monorepo/simple_chat_with_sqlite_memory/chatbot.py` (the latter adds print
statements only).  The business logic of all three is identical and is
embedded here once.

The Python routine is recursive; each recursive call happens only after at
least one message has been removed from the live list, so the recursion
depth is bounded by the number of live messages.  The embedding makes the
recursion explicit with a fuel parameter (`manageFuel`); the top-level entry
point `manage_context` supplies fuel `messages.length + 1`, and the theorem
`manageFuel_fuel_irrel` proves that any fuel strictly larger than the number
of live messages computes the same result, so the fuel is never exhausted.
-/

/-- One turn in a conversation.  `metrics` models the Python `msg.metrics`
dict: `none` is Python `None`, `some kvs` is a dict given as key/value
pairs.  Token counts are non-negative integers. -/
structure Msg where
  role : String
  content : String
  metrics : Option (List (String × Nat))
deriving DecidableEq

/-- The session summary returned by the summarizer collaborator
(`SessionSummary` in the agno framework: a text plus topic labels). -/
structure Summary where
  summary : String
  topics : List String
deriving DecidableEq

/-- The behavior of a summarizer collaborator: from the submitted list of
message pairs it produces a `Summary`, or `none` for a falsy/failed result
(Python `summary = agent.memory.summarizer.run(message_pairs)` followed by
`if summary:`). -/
def SummarizerFn : Type := List (Msg × Msg) → Option Summary

/-- The part of the agno `AgentMemory` state the routine can see: the live
message list, the current session summary, the (lazily installed)
summarizer, and the two configuration flags the repository sets when
constructing the memory (`create_session_summary`,
`update_session_summary_after_run`). -/
structure Memory where
  messages : List Msg
  summary : Option Summary
  summarizer : Option SummarizerFn
  create_session_summary : Bool
  update_session_summary_after_run : Bool

/-- The part of the agno `Agent` state surrounding the memory: the optional
memory (`agent.memory` can be Python `None`) and the session identity
fields. -/
structure Agent where
  memory : Option Memory
  session_id : Option String
  session_name : Option String

/-- Token count of a single message:
`msg.metrics.get('total_tokens', 0) if msg.metrics else 0`.
A missing metrics dict or a missing `'total_tokens'` key contributes 0. -/
def msgTokens (msg : Msg) : Nat :=
  match msg.metrics with
  | none => 0
  | some metrics => (metrics.lookup "total_tokens").getD 0

/-- `sum((msg.metrics.get('total_tokens', 0) if msg.metrics else 0) for msg
in agent.memory.messages)`. -/
def totalTokens (messages : List Msg) : Nat :=
  (messages.map msgTokens).sum

/-- The candidate-selection loop: walk the messages oldest-to-newest,
accumulating token counts while the running total stays at or below
`tokens_to_summarize`, and stop (`break`) at the first message that would
push the total past it. -/
def selectCandidates (tokens_to_summarize : Nat) :
    List Msg → Nat → List Msg
  | [], _ => []
  | msg :: rest, summarize_tokens =>
    if summarize_tokens + msgTokens msg ≤ tokens_to_summarize then
      msg :: selectCandidates tokens_to_summarize rest
        (summarize_tokens + msgTokens msg)
    else []

/-- The pairing loop: `for i in range(0, len(ms)-1, 2): if i+1 < len(ms):
pairs.append((ms[i], ms[i+1]))` — consecutive disjoint pairs, a trailing
unpaired element produces no pair. -/
def mkPairs : List Msg → List (Msg × Msg)
  | a :: b :: rest => (a, b) :: mkPairs rest
  | _ => []

/-- One entry into the body of the Python routine.  `recur` stands for the
recursive self-call; `d` is the behavior of a freshly constructed
`MemorySummarizer()`, installed into `memory.summarizer` when that field is
`None` at the moment a summarization pass is attempted. -/
def manageStep (d : SummarizerFn) (recur : Memory → Memory)
    (mem : Memory) : Memory :=
  if mem.messages = [] then mem
  else if 800000 < totalTokens mem.messages then
    if selectCandidates (totalTokens mem.messages / 10) mem.messages 0
        = [] then mem
    else
      match (mem.summarizer.getD d)
          (mkPairs
            (selectCandidates (totalTokens mem.messages / 10)
              mem.messages 0)) with
      | some summary =>
        if 900000 < totalTokens
            (mem.messages.drop
              (selectCandidates (totalTokens mem.messages / 10)
                mem.messages 0).length) then
          recur
            { mem with
              messages := mem.messages.drop
                (selectCandidates (totalTokens mem.messages / 10)
                  mem.messages 0).length
              summary := some summary
              summarizer := some (mem.summarizer.getD d) }
        else
          { mem with
            messages := mem.messages.drop
              (selectCandidates (totalTokens mem.messages / 10)
                mem.messages 0).length
            summary := some summary
            summarizer := some (mem.summarizer.getD d) }
      | none => { mem with summarizer := some (mem.summarizer.getD d) }
  else mem

/-- The recursive reduction, with an explicit fuel bounding the number of
passes.  `manageFuel_fuel_irrel` shows any fuel above the live-message count
gives the same result. -/
def manageFuel (d : SummarizerFn) : Nat → Memory → Memory
  | 0, mem => mem
  | fuel + 1, mem => manageStep d (manageFuel d fuel) mem

/-- `manage_context(agent)`: return immediately when the memory is `None`
or the live message list is empty, otherwise run the recursive reduction on
the memory. -/
def manage_context (d : SummarizerFn) (agent : Agent) : Agent :=
  match agent.memory with
  | none => agent
  | some mem =>
    if mem.messages = [] then agent
    else
      { agent with
        memory := some (manageFuel d (mem.messages.length + 1) mem) }

/-- Total live token count of an agent, 0 when there is no memory. -/
def agentTotalTokens (agent : Agent) : Nat :=
  match agent.memory with
  | none => 0
  | some mem => totalTokens mem.messages

/-- Convenient constructor for test messages carrying a given token count. -/
def msgTok (n : Nat) : Msg :=
  { role := "user", content := "m", metrics := some [("total_tokens", n)] }

-- ---------------------------------------------------------------------
-- Basic lemmas about the token arithmetic and the candidate selection.
-- ---------------------------------------------------------------------

theorem totalTokens_nil : totalTokens [] = 0 := rfl

theorem totalTokens_cons (m : Msg) (l : List Msg) :
    totalTokens (m :: l) = msgTokens m + totalTokens l := by
  simp [totalTokens]

theorem totalTokens_take_add_drop (n : Nat) (l : List Msg) :
    totalTokens (l.take n) + totalTokens (l.drop n) = totalTokens l := by
  conv_rhs => rw [← List.take_append_drop n l]
  simp [totalTokens]

theorem totalTokens_drop_le (n : Nat) (l : List Msg) :
    totalTokens (l.drop n) ≤ totalTokens l := by
  have h := totalTokens_take_add_drop n l
  omega

/-- The candidate set is an initial segment of the message list. -/
theorem selectCandidates_take (t : Nat) :
    ∀ (l : List Msg) (acc : Nat),
      selectCandidates t l acc
        = l.take (selectCandidates t l acc).length
  | [], _ => rfl
  | m :: rest, acc => by
    by_cases h : acc + msgTokens m ≤ t
    · simp only [selectCandidates, if_pos h, List.length_cons,
        List.take_succ_cons]
      exact congrArg (List.cons m) (selectCandidates_take t rest _)
    · simp [selectCandidates, if_neg h]

theorem manageFuel_zero (d : SummarizerFn) (mem : Memory) :
    manageFuel d 0 mem = mem := rfl

theorem manageFuel_succ (d : SummarizerFn) (fuel : Nat) (mem : Memory) :
    manageFuel d (fuel + 1) mem = manageStep d (manageFuel d fuel) mem :=
  rfl

/-- Below the high-water mark a pass changes nothing. -/
theorem manageFuel_no_op (d : SummarizerFn) (fuel : Nat) (mem : Memory)
    (h : totalTokens mem.messages ≤ 800000) :
    manageFuel d fuel mem = mem := by
  cases fuel with
  | zero => rfl
  | succ n =>
    rw [manageFuel_succ]
    unfold manageStep
    by_cases h1 : mem.messages = []
    · rw [if_pos h1]
    · rw [if_neg h1, if_neg (by omega : ¬ 800000 < totalTokens mem.messages)]


/-- Branch equation: empty candidate set, pass aborts with no change. -/
theorem manageStep_of_empty (d : SummarizerFn) (recur : Memory → Memory)
    (mem : Memory)
    (h2 : 800000 < totalTokens mem.messages)
    (h3 : selectCandidates (totalTokens mem.messages / 10)
        mem.messages 0 = []) :
    manageStep d recur mem = mem := by
  have h1 : mem.messages ≠ [] := by
    intro hE
    rw [hE] at h2
    exact absurd h2 (by decide)
  unfold manageStep
  rw [if_neg h1, if_pos h2, if_pos h3]

/-- Branch equation: the summarizer returns a falsy result; the pass aborts
after having installed the summarizer, leaving messages and summary
untouched. -/
theorem manageStep_of_none (d : SummarizerFn) (recur : Memory → Memory)
    (mem : Memory)
    (h2 : 800000 < totalTokens mem.messages)
    (h3 : selectCandidates (totalTokens mem.messages / 10)
        mem.messages 0 ≠ [])
    (hs : (mem.summarizer.getD d)
        (mkPairs
          (selectCandidates (totalTokens mem.messages / 10)
            mem.messages 0)) = none) :
    manageStep d recur mem
      = { mem with summarizer := some (mem.summarizer.getD d) } := by
  have h1 : mem.messages ≠ [] := by
    intro hE
    rw [hE] at h2
    exact absurd h2 (by decide)
  unfold manageStep
  rw [if_neg h1, if_pos h2, if_neg h3, hs]

/-- Below the high-water mark (which covers the empty message list) the
body is the identity. -/
theorem manageStep_no_op (d : SummarizerFn) (recur : Memory → Memory)
    (mem : Memory) (h : totalTokens mem.messages ≤ 800000) :
    manageStep d recur mem = mem := by
  unfold manageStep
  by_cases h1 : mem.messages = []
  · rw [if_pos h1]
  · rw [if_neg h1, if_neg (by omega : ¬ 800000 < totalTokens mem.messages)]

/-- The equation of a successful summarization pass: with the high-water
mark exceeded, a non-empty candidate set, and a summarizer returning a
summary, the pass truncates the candidate prefix, installs the summary and
the summarizer, and recurses exactly when the remaining token total is
strictly above 900000. -/
theorem manageStep_of_summary (d : SummarizerFn) (recur : Memory → Memory)
    (mem : Memory) (s : Summary)
    (h2 : 800000 < totalTokens mem.messages)
    (h3 : selectCandidates (totalTokens mem.messages / 10)
        mem.messages 0 ≠ [])
    (hs : (mem.summarizer.getD d)
        (mkPairs
          (selectCandidates (totalTokens mem.messages / 10)
            mem.messages 0)) = some s) :
    manageStep d recur mem =
      (if 900000 < totalTokens
          (mem.messages.drop
            (selectCandidates (totalTokens mem.messages / 10)
              mem.messages 0).length) then
        recur
          { mem with
            messages := mem.messages.drop
              (selectCandidates (totalTokens mem.messages / 10)
                mem.messages 0).length
            summary := some s
            summarizer := some (mem.summarizer.getD d) }
      else
        { mem with
          messages := mem.messages.drop
            (selectCandidates (totalTokens mem.messages / 10)
              mem.messages 0).length
          summary := some s
          summarizer := some (mem.summarizer.getD d) }) := by
  have h1 : mem.messages ≠ [] := by
    intro hE
    rw [hE] at h2
    exact absurd h2 (by decide)
  unfold manageStep
  rw [if_neg h1, if_pos h2, if_neg h3, hs]

theorem manageFuel_succ_of_summary (d : SummarizerFn) (fuel : Nat)
    (mem : Memory) (s : Summary)
    (h2 : 800000 < totalTokens mem.messages)
    (h3 : selectCandidates (totalTokens mem.messages / 10)
        mem.messages 0 ≠ [])
    (hs : (mem.summarizer.getD d)
        (mkPairs
          (selectCandidates (totalTokens mem.messages / 10)
            mem.messages 0)) = some s) :
    manageFuel d (fuel + 1) mem =
      (if 900000 < totalTokens
          (mem.messages.drop
            (selectCandidates (totalTokens mem.messages / 10)
              mem.messages 0).length) then
        manageFuel d fuel
          { mem with
            messages := mem.messages.drop
              (selectCandidates (totalTokens mem.messages / 10)
                mem.messages 0).length
            summary := some s
            summarizer := some (mem.summarizer.getD d) }
      else
        { mem with
          messages := mem.messages.drop
            (selectCandidates (totalTokens mem.messages / 10)
              mem.messages 0).length
          summary := some s
          summarizer := some (mem.summarizer.getD d) }) := by
  rw [manageFuel_succ]
  exact manageStep_of_summary d (manageFuel d fuel) mem s h2 h3 hs

/-- The live list only ever shrinks by prefix truncation: the result of the
reduction is a `drop` of the original message list. -/
theorem manageFuel_messages_drop (d : SummarizerFn) :
    ∀ (fuel : Nat) (mem : Memory),
      ∃ k, (manageFuel d fuel mem).messages = mem.messages.drop k
  | 0, mem => ⟨0, rfl⟩
  | fuel + 1, mem => by
    by_cases h2 : 800000 < totalTokens mem.messages
    · by_cases h3 : selectCandidates (totalTokens mem.messages / 10)
          mem.messages 0 = []
      · rw [manageFuel_succ, manageStep_of_empty d _ mem h2 h3]
        exact ⟨0, rfl⟩
      · cases hrun : (mem.summarizer.getD d)
            (mkPairs
              (selectCandidates (totalTokens mem.messages / 10)
                mem.messages 0)) with
        | none =>
          rw [manageFuel_succ, manageStep_of_none d _ mem h2 h3 hrun]
          exact ⟨0, rfl⟩
        | some s =>
          rw [manageFuel_succ_of_summary d fuel mem s h2 h3 hrun]
          by_cases h4 : 900000 < totalTokens
              (mem.messages.drop
                (selectCandidates (totalTokens mem.messages / 10)
                  mem.messages 0).length)
          · rw [if_pos h4]
            obtain ⟨k, hk⟩ := manageFuel_messages_drop d fuel
              { mem with
                messages := mem.messages.drop
                  (selectCandidates (totalTokens mem.messages / 10)
                    mem.messages 0).length
                summary := some s
                summarizer := some (mem.summarizer.getD d) }
            refine ⟨(selectCandidates (totalTokens mem.messages / 10)
                mem.messages 0).length + k, ?_⟩
            rw [hk]
            exact List.drop_drop k _ mem.messages
          · rw [if_neg h4]
            exact ⟨(selectCandidates (totalTokens mem.messages / 10)
                mem.messages 0).length, rfl⟩
    · rw [manageFuel_succ, manageStep_no_op d _ mem (by omega)]
      exact ⟨0, rfl⟩

/-- Frame property of the reduction on the memory state: the two
configuration flags are untouched, and the summarizer field is either left
alone or set to the summarizer the first working pass used
(`mem.summarizer` if present, otherwise the freshly constructed default). -/
theorem manageFuel_frame (d : SummarizerFn) :
    ∀ (fuel : Nat) (mem : Memory),
      (manageFuel d fuel mem).create_session_summary
          = mem.create_session_summary ∧
      (manageFuel d fuel mem).update_session_summary_after_run
          = mem.update_session_summary_after_run ∧
      ((manageFuel d fuel mem).summarizer = mem.summarizer ∨
        (manageFuel d fuel mem).summarizer
          = some (mem.summarizer.getD d))
  | 0, mem => ⟨rfl, rfl, Or.inl rfl⟩
  | fuel + 1, mem => by
    by_cases h2 : 800000 < totalTokens mem.messages
    · by_cases h3 : selectCandidates (totalTokens mem.messages / 10)
          mem.messages 0 = []
      · rw [manageFuel_succ, manageStep_of_empty d _ mem h2 h3]
        exact ⟨rfl, rfl, Or.inl rfl⟩
      · cases hrun : (mem.summarizer.getD d)
            (mkPairs
              (selectCandidates (totalTokens mem.messages / 10)
                mem.messages 0)) with
        | none =>
          rw [manageFuel_succ, manageStep_of_none d _ mem h2 h3 hrun]
          exact ⟨rfl, rfl, Or.inr rfl⟩
        | some s =>
          rw [manageFuel_succ_of_summary d fuel mem s h2 h3 hrun]
          by_cases h4 : 900000 < totalTokens
              (mem.messages.drop
                (selectCandidates (totalTokens mem.messages / 10)
                  mem.messages 0).length)
          · rw [if_pos h4]
            obtain ⟨ha, hb, hc⟩ := manageFuel_frame d fuel
              { mem with
                messages := mem.messages.drop
                  (selectCandidates (totalTokens mem.messages / 10)
                    mem.messages 0).length
                summary := some s
                summarizer := some (mem.summarizer.getD d) }
            refine ⟨ha, hb, Or.inr ?_⟩
            rcases hc with hc | hc
            · exact hc
            · simpa using hc
          · rw [if_neg h4]
            exact ⟨rfl, rfl, Or.inr rfl⟩
    · rw [manageFuel_succ, manageStep_no_op d _ mem (by omega)]
      exact ⟨rfl, rfl, Or.inl rfl⟩

/-- Termination of the recursive reduction: each recursing pass removes at
least one live message, so any fuel strictly larger than the live-message
count yields the same result.  In particular the recursion depth of the
Python routine is bounded by the number of live messages. -/
theorem manageFuel_fuel_irrel (d : SummarizerFn) :
    ∀ (f1 f2 : Nat) (mem : Memory),
      mem.messages.length < f1 → mem.messages.length < f2 →
      manageFuel d f1 mem = manageFuel d f2 mem
  | 0, _, _, h1, _ => absurd h1 (Nat.not_lt_zero _)
  | _ + 1, 0, _, _, h2 => absurd h2 (Nat.not_lt_zero _)
  | f1 + 1, f2 + 1, mem, h1, h2 => by
    by_cases ha : 800000 < totalTokens mem.messages
    · by_cases hb : selectCandidates (totalTokens mem.messages / 10)
          mem.messages 0 = []
      · rw [manageFuel_succ, manageFuel_succ,
          manageStep_of_empty d _ mem ha hb,
          manageStep_of_empty d _ mem ha hb]
      · cases hrun : (mem.summarizer.getD d)
            (mkPairs
              (selectCandidates (totalTokens mem.messages / 10)
                mem.messages 0)) with
        | none =>
          rw [manageFuel_succ, manageFuel_succ,
            manageStep_of_none d _ mem ha hb hrun,
            manageStep_of_none d _ mem ha hb hrun]
        | some s =>
          rw [manageFuel_succ_of_summary d f1 mem s ha hb hrun,
            manageFuel_succ_of_summary d f2 mem s ha hb hrun]
          by_cases hc : 900000 < totalTokens
              (mem.messages.drop
                (selectCandidates (totalTokens mem.messages / 10)
                  mem.messages 0).length)
          · rw [if_pos hc, if_pos hc]
            have hmne : mem.messages ≠ [] := by
              intro hE
              rw [hE] at ha
              exact absurd ha (by decide)
            have hlp : 0 < mem.messages.length := List.length_pos.mpr hmne
            have hcp : 0 < (selectCandidates
                (totalTokens mem.messages / 10) mem.messages 0).length :=
              List.length_pos.mpr hb
            refine manageFuel_fuel_irrel d f1 f2 _ ?_ ?_ <;>
              · simp only [List.length_drop]
                omega
          · rw [if_neg hc, if_neg hc]
    · rw [manageFuel_succ, manageFuel_succ,
        manageStep_no_op d _ mem (by omega),
        manageStep_no_op d _ mem (by omega)]

-- ---------------------------------------------------------------------
-- Lemmas about the pairing loop.
-- ---------------------------------------------------------------------

/-- The pairing loop produces exactly `floor(N/2)` pairs. -/
theorem mkPairs_length : ∀ (l : List Msg),
    (mkPairs l).length = l.length / 2
  | [] => rfl
  | [_] => by
    show (0 : Nat) = 1 / 2
    decide
  | a :: b :: t => by
    simp only [mkPairs, List.length_cons, mkPairs_length t]
    omega

/-- Each produced pair consists of consecutive candidates in order: the
`i`-th pair is `(l[2i], l[2i+1])`. -/
theorem mkPairs_get : ∀ (l : List Msg) (i : Nat) (a b : Msg),
    (mkPairs l)[i]? = some (a, b) →
    l[2 * i]? = some a ∧ l[2 * i + 1]? = some b
  | [], i, a, b, h => by simp [mkPairs] at h
  | [x], i, a, b, h => by simp [mkPairs] at h
  | x :: y :: t, 0, a, b, h => by
    simp only [mkPairs, List.getElem?_cons_zero, Option.some.injEq,
      Prod.mk.injEq] at h
    obtain ⟨hx, hy⟩ := h
    subst hx
    subst hy
    exact ⟨by simp, by simp⟩
  | x :: y :: t, i + 1, a, b, h => by
    have ih := mkPairs_get t i a b (by simpa [mkPairs] using h)
    have e1 : 2 * (i + 1) = 2 * i + 1 + 1 := by omega
    rw [e1]
    simp only [List.getElem?_cons_succ]
    exact ih

/-- For a candidate list of odd length, the pairing loop ignores the
trailing unpaired element: it produces the same pairs as the list without
its last element. -/
theorem mkPairs_dropLast_odd : ∀ (l : List Msg),
    l.length % 2 = 1 → mkPairs l = mkPairs l.dropLast
  | [], h => by simp at h
  | [_], _ => rfl
  | [_, _], h => by simp at h
  | a :: b :: c :: t, h => by
    have ht : (c :: t).length % 2 = 1 := by
      simp only [List.length_cons] at h ⊢
      omega
    exact congrArg (List.cons (a, b)) (mkPairs_dropLast_odd (c :: t) ht)

/-- Candidate selection keeps the head message when it fits the target. -/
theorem selectCandidates_head (t : Nat) (m0 : Msg) (rest : List Msg)
    (h : msgTokens m0 ≤ t) :
    ∃ tl, selectCandidates t (m0 :: rest) 0 = m0 :: tl := by
  refine ⟨selectCandidates t rest (0 + msgTokens m0), ?_⟩
  simp only [selectCandidates]
  rw [if_pos (by omega)]

-- ---------------------------------------------------------------------
-- Concrete inputs used by witnesses and counterexamples.
-- ---------------------------------------------------------------------

/-- A summarizer that always succeeds with a fixed summary. -/
def dSome : SummarizerFn := fun _ => some { summary := "s", topics := [] }

/-- A summarizer that always fails (returns a falsy result). -/
def dNone : SummarizerFn := fun _ => none

/-- A fresh memory holding the given live messages. -/
def mkMem (l : List Msg) : Memory :=
  { messages := l, summary := none, summarizer := none,
    create_session_summary := false,
    update_session_summary_after_run := false }

/-- A fresh agent holding the given live messages. -/
def mkAgent (l : List Msg) : Agent :=
  { memory := some (mkMem l), session_id := none, session_name := none }

/-- A message whose metrics dict is absent (Python `None`). -/
def mNone : Msg := { role := "user", content := "m", metrics := none }

def mA : Msg :=
  { role := "user", content := "a", metrics := some [("total_tokens", 30000)] }

def mB : Msg :=
  { role := "user", content := "b", metrics := some [("total_tokens", 30000)] }

def mC : Msg :=
  { role := "user", content := "c", metrics := some [("total_tokens", 30000)] }

def mD : Msg :=
  { role := "user", content := "d", metrics := some [("total_tokens", 810000)] }

-- ---------------------------------------------------------------------
-- The claims.
-- ---------------------------------------------------------------------

/-- C1: for every Conversation whose total token count is at most the
high-water mark 800000 — including the empty conversation and a
conversation with no memory — `manage_context` returns the agent state
byte-for-byte unchanged. -/
theorem claim_C1_idempotent_below_watermark (d : SummarizerFn)
    (agent : Agent) (h : agentTotalTokens agent ≤ 800000) :
    manage_context d agent = agent := by
  obtain ⟨om, sid, sname⟩ := agent
  cases om with
  | none => rfl
  | some mem =>
    have hT : totalTokens mem.messages ≤ 800000 := h
    simp only [manage_context]
    by_cases hnil : mem.messages = []
    · rw [if_pos hnil]
    · rw [if_neg hnil, manageFuel_no_op d _ mem hT]

/-- Witness for C1: the agent with no memory and the agent with an empty
message list are both left unchanged. -/
theorem claim_C1_witness :
    manage_context dNone
        { memory := none, session_id := none, session_name := none }
      = { memory := none, session_id := none, session_name := none } ∧
    manage_context dNone (mkAgent []) = mkAgent [] :=
  ⟨claim_C1_idempotent_below_watermark dNone _ (by decide),
   claim_C1_idempotent_below_watermark dNone _ (by decide)⟩

/-- C3: the recursive reduction terminates with recursion depth at most the
initial number of live messages: every fuel strictly larger than the
live-message count computes the same result, for every behavior of the
summarizer collaborator. -/
theorem claim_C3_termination_depth_bound (d : SummarizerFn)
    (f1 f2 : Nat) (mem : Memory)
    (h1 : mem.messages.length < f1) (h2 : mem.messages.length < f2) :
    manageFuel d f1 mem = manageFuel d f2 mem :=
  manageFuel_fuel_irrel d f1 f2 mem h1 h2

/-- Witness for C3: on the empty conversation fuel 1 and fuel 3 agree. -/
theorem claim_C3_witness :
    manageFuel dNone 1 (mkMem []) = manageFuel dNone 3 (mkMem []) :=
  claim_C3_termination_depth_bound dNone 1 3 (mkMem []) (by decide)
    (by decide)

/-- Counterexample to C2 as stated: the conversation `[900001, 0]` has
total 900001 > 800000 and contains a message (the 0-token one) with token
count below total/10 = 90000, yet the candidate walk breaks at the first
(oversized) message, the candidate set is empty, no summarization happens
even with an always-succeeding summarizer, and the total does not
decrease. -/
theorem claim_C2_counterexample :
    800000 < agentTotalTokens (mkAgent [msgTok 900001, msgTok 0]) ∧
    msgTok 0 ∈ [msgTok 900001, msgTok 0] ∧
    msgTokens (msgTok 0)
        < agentTotalTokens (mkAgent [msgTok 900001, msgTok 0]) / 10 ∧
    manage_context dSome (mkAgent [msgTok 900001, msgTok 0])
        = mkAgent [msgTok 900001, msgTok 0] ∧
    ¬ (agentTotalTokens
          (manage_context dSome (mkAgent [msgTok 900001, msgTok 0]))
        < agentTotalTokens (mkAgent [msgTok 900001, msgTok 0])) :=
  ⟨by decide, by decide, by decide, rfl, by decide⟩

/-- C2 (amended): for every Conversation with total tokens above 800000
whose oldest live message has a positive token count at most total/10 (so
the candidate set is non-empty and carries positive token weight), and
whose summarizer returns a Summary on the submitted pairs, the total token
count strictly decreases. -/
theorem claim_C2_amended_strict_decrease (d : SummarizerFn) (mem : Memory)
    (fuel : Nat) (m0 : Msg) (rest : List Msg) (s : Summary)
    (hmsgs : mem.messages = m0 :: rest)
    (h2 : 800000 < totalTokens mem.messages)
    (hpos : 0 < msgTokens m0)
    (hle : msgTokens m0 ≤ totalTokens mem.messages / 10)
    (hs : (mem.summarizer.getD d)
        (mkPairs
          (selectCandidates (totalTokens mem.messages / 10)
            mem.messages 0)) = some s) :
    totalTokens (manageFuel d (fuel + 1) mem).messages
      < totalTokens mem.messages := by
  obtain ⟨tl, htl⟩ :=
    selectCandidates_head (totalTokens mem.messages / 10) m0 rest hle
  rw [← hmsgs] at htl
  have hcne : selectCandidates (totalTokens mem.messages / 10)
      mem.messages 0 ≠ [] := by
    rw [htl]
    simp
  rw [manageFuel_succ_of_summary d fuel mem s h2 hcne hs]
  have hsplit := totalTokens_take_add_drop
    (selectCandidates (totalTokens mem.messages / 10)
      mem.messages 0).length mem.messages
  rw [← selectCandidates_take (totalTokens mem.messages / 10)
    mem.messages 0] at hsplit
  have hcpos : 0 < totalTokens
      (selectCandidates (totalTokens mem.messages / 10)
        mem.messages 0) := by
    rw [htl, totalTokens_cons]
    omega
  have hlt : totalTokens
      (mem.messages.drop
        (selectCandidates (totalTokens mem.messages / 10)
          mem.messages 0).length)
      < totalTokens mem.messages := by omega
  by_cases h4 : 900000 < totalTokens
      (mem.messages.drop
        (selectCandidates (totalTokens mem.messages / 10)
          mem.messages 0).length)
  · rw [if_pos h4]
    obtain ⟨k, hk⟩ := manageFuel_messages_drop d fuel
      { mem with
        messages := mem.messages.drop
          (selectCandidates (totalTokens mem.messages / 10)
            mem.messages 0).length
        summary := some s
        summarizer := some (mem.summarizer.getD d) }
    rw [hk]
    show totalTokens
        ((mem.messages.drop
          (selectCandidates (totalTokens mem.messages / 10)
            mem.messages 0).length).drop k)
      < totalTokens mem.messages
    have hd : totalTokens
        ((mem.messages.drop
          (selectCandidates (totalTokens mem.messages / 10)
            mem.messages 0).length).drop k)
        ≤ totalTokens
          (mem.messages.drop
            (selectCandidates (totalTokens mem.messages / 10)
              mem.messages 0).length) :=
      totalTokens_drop_le k _
    omega
  · rw [if_neg h4]
    exact hlt

/-- Witness for C2 (amended): `[100000, 900000]` with a succeeding
summarizer drops the first message; the total falls from 1000000 to
900000. -/
theorem claim_C2_witness :
    totalTokens
        (manageFuel dSome (2 + 1)
          (mkMem [msgTok 100000, msgTok 900000])).messages
      < totalTokens (mkMem [msgTok 100000, msgTok 900000]).messages :=
  claim_C2_amended_strict_decrease dSome
    (mkMem [msgTok 100000, msgTok 900000]) 2 (msgTok 100000)
    [msgTok 900000] { summary := "s", topics := [] } rfl (by decide)
    (by decide) (by decide) rfl

/-- C4: whenever a pass makes no progress — the candidate set is empty, or
the summarizer returns a falsy result — the pass leaves the live message
list and the Summary exactly unchanged. -/
theorem claim_C4_no_progress_no_change (d : SummarizerFn) (mem : Memory)
    (fuel : Nat)
    (h2 : 800000 < totalTokens mem.messages)
    (h : selectCandidates (totalTokens mem.messages / 10)
          mem.messages 0 = [] ∨
        (mem.summarizer.getD d)
          (mkPairs
            (selectCandidates (totalTokens mem.messages / 10)
              mem.messages 0)) = none) :
    (manageFuel d (fuel + 1) mem).messages = mem.messages ∧
    (manageFuel d (fuel + 1) mem).summary = mem.summary := by
  rcases h with hc | hrun
  · rw [manageFuel_succ, manageStep_of_empty d _ mem h2 hc]
    exact ⟨rfl, rfl⟩
  · by_cases hc : selectCandidates (totalTokens mem.messages / 10)
        mem.messages 0 = []
    · rw [manageFuel_succ, manageStep_of_empty d _ mem h2 hc]
      exact ⟨rfl, rfl⟩
    · rw [manageFuel_succ, manageStep_of_none d _ mem h2 hc hrun]
      exact ⟨rfl, rfl⟩

/-- Witness for C4: a single 900001-token message alone exceeds the target
90000, the candidate set is empty, and the conversation is untouched. -/
theorem claim_C4_witness :
    totalTokens (mkMem [msgTok 900001]).messages / 10
        < msgTokens (msgTok 900001) ∧
    ((manageFuel dNone (0 + 1) (mkMem [msgTok 900001])).messages
        = (mkMem [msgTok 900001]).messages ∧
      (manageFuel dNone (0 + 1) (mkMem [msgTok 900001])).summary
        = (mkMem [msgTok 900001]).summary) :=
  ⟨by decide,
   claim_C4_no_progress_no_change dNone (mkMem [msgTok 900001]) 0
     (by decide) (Or.inl (by decide))⟩

/-- C5: for every candidate list of N messages the pairing loop submits
exactly floor(N/2) pairs, and the i-th pair is the pair of consecutive
candidates (candidate 2i, candidate 2i+1). -/
theorem claim_C5_pairing_rule (l : List Msg) :
    (mkPairs l).length = l.length / 2 ∧
    ∀ i a b, (mkPairs l)[i]? = some (a, b) →
      l[2 * i]? = some a ∧ l[2 * i + 1]? = some b :=
  ⟨mkPairs_length l, fun i a b h => mkPairs_get l i a b h⟩

/-- Witness for C5: on the three-message candidate list `[a, b, c]` there
is one pair and it is `(a, b)`. -/
theorem claim_C5_witness :
    (mkPairs [mA, mB, mC]).length = [mA, mB, mC].length / 2 ∧
    ([mA, mB, mC][2 * 0]? = some mA ∧
      [mA, mB, mC][2 * 0 + 1]? = some mB) :=
  ⟨(claim_C5_pairing_rule [mA, mB, mC]).1,
   (claim_C5_pairing_rule [mA, mB, mC]).2 0 mA mB (by decide)⟩

/-- Counterexample to C6 as stated: on `[a, b, c, d]` with tokens
`[30000, 30000, 30000, 810000]` the candidate set is the odd-length
`[a, b, c]`, only the pair `(a, b)` is submitted, the summarizer
succeeds — and the unpaired candidate `c` is NOT retained in the live
list: the pass removes the entire candidate set, leaving `[d]`. -/
theorem claim_C6_counterexample :
    selectCandidates (totalTokens [mA, mB, mC, mD] / 10)
        [mA, mB, mC, mD] 0 = [mA, mB, mC] ∧
    (selectCandidates (totalTokens [mA, mB, mC, mD] / 10)
        [mA, mB, mC, mD] 0).length % 2 = 1 ∧
    mkPairs [mA, mB, mC] = [(mA, mB)] ∧
    (manageFuel dSome ([mA, mB, mC, mD].length + 1)
        (mkMem [mA, mB, mC, mD])).messages = [mD] ∧
    mC ∉ (manageFuel dSome ([mA, mB, mC, mD].length + 1)
        (mkMem [mA, mB, mC, mD])).messages :=
  ⟨by decide, by decide, by decide, rfl, by decide⟩

/-- C6 (amended): when the candidate set has odd length and the summarizer
returns a Summary, the trailing unpaired candidate is dropped from the
input submitted to the summarizer (the pairs are those of the candidate
list without its last element), but it is NOT kept in the conversation:
the pass removes the entire candidate set from the live list (and later
passes can only remove more). -/
theorem claim_C6_amended_unpaired_removed (d : SummarizerFn)
    (mem : Memory) (fuel : Nat) (s : Summary)
    (h2 : 800000 < totalTokens mem.messages)
    (hodd : (selectCandidates (totalTokens mem.messages / 10)
        mem.messages 0).length % 2 = 1)
    (hs : (mem.summarizer.getD d)
        (mkPairs
          (selectCandidates (totalTokens mem.messages / 10)
            mem.messages 0)) = some s) :
    mkPairs (selectCandidates (totalTokens mem.messages / 10)
        mem.messages 0)
      = mkPairs (selectCandidates (totalTokens mem.messages / 10)
          mem.messages 0).dropLast ∧
    ∃ k, (manageFuel d (fuel + 1) mem).messages
      = mem.messages.drop
          ((selectCandidates (totalTokens mem.messages / 10)
            mem.messages 0).length + k) := by
  have hcne : selectCandidates (totalTokens mem.messages / 10)
      mem.messages 0 ≠ [] := by
    intro hE
    rw [hE] at hodd
    simp at hodd
  refine ⟨mkPairs_dropLast_odd _ hodd, ?_⟩
  rw [manageFuel_succ_of_summary d fuel mem s h2 hcne hs]
  by_cases h4 : 900000 < totalTokens
      (mem.messages.drop
        (selectCandidates (totalTokens mem.messages / 10)
          mem.messages 0).length)
  · rw [if_pos h4]
    obtain ⟨k, hk⟩ := manageFuel_messages_drop d fuel
      { mem with
        messages := mem.messages.drop
          (selectCandidates (totalTokens mem.messages / 10)
            mem.messages 0).length
        summary := some s
        summarizer := some (mem.summarizer.getD d) }
    refine ⟨k, ?_⟩
    rw [hk]
    exact List.drop_drop k _ mem.messages
  · rw [if_neg h4]
    exact ⟨0, by simp⟩

/-- Witness for C6 (amended): the `[a, b, c, d]` scenario — the pairs of
`[a, b, c]` equal the pairs of `[a, b]`, and all three candidates are
removed from the live list. -/
theorem claim_C6_witness :
    mkPairs (selectCandidates
        (totalTokens [mA, mB, mC, mD] / 10) [mA, mB, mC, mD] 0)
      = mkPairs (selectCandidates
          (totalTokens [mA, mB, mC, mD] / 10)
          [mA, mB, mC, mD] 0).dropLast ∧
    ∃ k, (manageFuel dSome (3 + 1) (mkMem [mA, mB, mC, mD])).messages
      = (mkMem [mA, mB, mC, mD]).messages.drop
          ((selectCandidates
            (totalTokens (mkMem [mA, mB, mC, mD]).messages / 10)
            (mkMem [mA, mB, mC, mD]).messages 0).length + k) :=
  claim_C6_amended_unpaired_removed dSome (mkMem [mA, mB, mC, mD]) 3
    { summary := "s", topics := [] } (by decide) (by decide) rfl

/-- C7: after a successful summarization pass a further pass is made if and
only if the recomputed remaining token total is strictly greater than
900000: the pass truncates the candidate prefix, installs the summary and
summarizer, and recurses exactly under the strict comparison. -/
theorem claim_C7_recursion_boundary (d : SummarizerFn) (fuel : Nat)
    (mem : Memory) (s : Summary)
    (h2 : 800000 < totalTokens mem.messages)
    (h3 : selectCandidates (totalTokens mem.messages / 10)
        mem.messages 0 ≠ [])
    (hs : (mem.summarizer.getD d)
        (mkPairs
          (selectCandidates (totalTokens mem.messages / 10)
            mem.messages 0)) = some s) :
    manageFuel d (fuel + 1) mem =
      (if 900000 < totalTokens
          (mem.messages.drop
            (selectCandidates (totalTokens mem.messages / 10)
              mem.messages 0).length) then
        manageFuel d fuel
          { mem with
            messages := mem.messages.drop
              (selectCandidates (totalTokens mem.messages / 10)
                mem.messages 0).length
            summary := some s
            summarizer := some (mem.summarizer.getD d) }
      else
        { mem with
          messages := mem.messages.drop
            (selectCandidates (totalTokens mem.messages / 10)
              mem.messages 0).length
          summary := some s
          summarizer := some (mem.summarizer.getD d) }) :=
  manageFuel_succ_of_summary d fuel mem s h2 h3 hs

/-- Witness for C7: Scenario C — 100 messages of 10000 tokens each (total
1000000): the candidate set is the 10 oldest messages, 5 pairs are
submitted, the remaining total is exactly 900000, and since 900000 is not
strictly greater than 900000 no further pass runs: the result is exactly
the 90 remaining messages with the new summary. -/
theorem claim_C7_witness :
    manageFuel dSome (100 + 1) (mkMem (List.replicate 100 (msgTok 10000)))
      = { messages := List.replicate 90 (msgTok 10000),
          summary := some { summary := "s", topics := [] },
          summarizer := some dSome, create_session_summary := false,
          update_session_summary_after_run := false } ∧
    (selectCandidates
        (totalTokens (List.replicate 100 (msgTok 10000)) / 10)
        (List.replicate 100 (msgTok 10000)) 0).length = 10 ∧
    (mkPairs (selectCandidates
        (totalTokens (List.replicate 100 (msgTok 10000)) / 10)
        (List.replicate 100 (msgTok 10000)) 0)).length = 5 ∧
    totalTokens (List.replicate 90 (msgTok 10000)) = 900000 ∧
    ¬ (900000 < totalTokens (List.replicate 90 (msgTok 10000))) := by
  refine ⟨?_, by decide, by decide, by decide, by decide⟩
  rw [claim_C7_recursion_boundary dSome 100
    (mkMem (List.replicate 100 (msgTok 10000)))
    { summary := "s", topics := [] } (by decide) (by decide) rfl]
  rw [if_neg (by decide)]
  rfl

/-- C8: for every call to `manage_context` the resulting live message list
is a contiguous suffix (a `drop`) of the pre-call live message list — never
reordered, never modified, never extended — so the message count and the
total token count never increase. -/
theorem claim_C8_suffix_invariant (d : SummarizerFn) (agent : Agent)
    (mem : Memory) (h : agent.memory = some mem) :
    ∃ k mem2, (manage_context d agent).memory = some mem2 ∧
      mem2.messages = mem.messages.drop k ∧
      mem2.messages.length ≤ mem.messages.length ∧
      totalTokens mem2.messages ≤ totalTokens mem.messages := by
  obtain ⟨om, sid, sname⟩ := agent
  cases om with
  | none => simp at h
  | some mem0 =>
    have hm : mem0 = mem := by simpa using h
    subst hm
    simp only [manage_context]
    by_cases hnil : mem0.messages = []
    · rw [if_pos hnil]
      exact ⟨0, mem0, rfl, by simp, le_refl _, le_refl _⟩
    · rw [if_neg hnil]
      obtain ⟨k, hk⟩ :=
        manageFuel_messages_drop d (mem0.messages.length + 1) mem0
      refine ⟨k, manageFuel d (mem0.messages.length + 1) mem0, rfl, hk,
        ?_, ?_⟩
      · rw [hk, List.length_drop]
        omega
      · rw [hk]
        exact totalTokens_drop_le k _

/-- Witness for C8: a one-message conversation below the watermark keeps
its list as the `drop 0` suffix. -/
theorem claim_C8_witness :
    ∃ k mem2,
      (manage_context dNone (mkAgent [msgTok 5])).memory = some mem2 ∧
      mem2.messages = (mkMem [msgTok 5]).messages.drop k ∧
      mem2.messages.length ≤ (mkMem [msgTok 5]).messages.length ∧
      totalTokens mem2.messages
        ≤ totalTokens (mkMem [msgTok 5]).messages :=
  claim_C8_suffix_invariant dNone (mkAgent [msgTok 5])
    (mkMem [msgTok 5]) rfl

/-- Counterexample to C9 as stated: on the conversation
`[0 tokens, 900001 tokens]` (total over the watermark, candidate set
non-empty) the routine installs a `MemorySummarizer` into the memory's
previously-`None` `summarizer` field even though the summarizer then fails
— a state change outside the live message list and the Summary. -/
theorem claim_C9_counterexample :
    ((mkAgent [msgTok 0, msgTok 900001]).memory.map
        fun m => m.summarizer.isSome) = some false ∧
    ((manage_context dNone (mkAgent [msgTok 0, msgTok 900001])).memory.map
        fun m => m.summarizer.isSome) = some true ∧
    ((manage_context dNone (mkAgent [msgTok 0, msgTok 900001])).memory.map
        fun m => m.summarizer.isSome)
      ≠ ((mkAgent [msgTok 0, msgTok 900001]).memory.map
          fun m => m.summarizer.isSome) :=
  ⟨rfl, rfl, by decide⟩

/-- C9 (amended): `manage_context` changes only the memory's live message
list, its Summary, and — when a summarization pass is attempted while the
memory's summarizer is `None` — installs the default summarizer; the
session fields, the presence of the memory, and the memory's configuration
flags are unchanged on every path. -/
theorem claim_C9_amended_frame (d : SummarizerFn) (agent : Agent) :
    (manage_context d agent).session_id = agent.session_id ∧
    (manage_context d agent).session_name = agent.session_name ∧
    (agent.memory = none → manage_context d agent = agent) ∧
    (∀ mem, agent.memory = some mem →
      ∃ mem2, (manage_context d agent).memory = some mem2 ∧
        mem2.create_session_summary = mem.create_session_summary ∧
        mem2.update_session_summary_after_run
          = mem.update_session_summary_after_run ∧
        (mem2.summarizer = mem.summarizer ∨
          (mem.summarizer = none ∧ mem2.summarizer = some d))) := by
  obtain ⟨om, sid, sname⟩ := agent
  cases om with
  | none => exact ⟨rfl, rfl, fun _ => rfl, fun mem h => by simp at h⟩
  | some mem0 =>
    simp only [manage_context]
    by_cases hnil : mem0.messages = []
    · rw [if_pos hnil]
      refine ⟨rfl, rfl, fun h => by simp at h, fun mem h => ?_⟩
      have hm : mem0 = mem := by simpa using h
      subst hm
      exact ⟨mem0, rfl, rfl, rfl, Or.inl rfl⟩
    · rw [if_neg hnil]
      refine ⟨rfl, rfl, fun h => by simp at h, fun mem h => ?_⟩
      have hm : mem0 = mem := by simpa using h
      subst hm
      obtain ⟨ha, hb, hc⟩ :=
        manageFuel_frame d (mem0.messages.length + 1) mem0
      refine ⟨manageFuel d (mem0.messages.length + 1) mem0, rfl, ha, hb,
        ?_⟩
      cases hos : mem0.summarizer with
      | some f =>
        rcases hc with hc | hc
        · rw [hos] at hc
          exact Or.inl hc
        · rw [hos] at hc
          simp only [Option.getD_some] at hc
          exact Or.inl hc
      | none =>
        rcases hc with hc | hc
        · rw [hos] at hc
          exact Or.inl hc
        · rw [hos] at hc
          simp only [Option.getD_none] at hc
          exact Or.inr ⟨rfl, hc⟩

/-- Witness for C9 (amended): on the `[0, 900001]` conversation with a
failing default summarizer the session fields survive and the memory keeps
its flags, with the summarizer installed. -/
theorem claim_C9_witness :
    (manage_context dNone (mkAgent [msgTok 0, msgTok 900001])).session_id
        = (mkAgent [msgTok 0, msgTok 900001]).session_id ∧
    ∃ mem2,
      (manage_context dNone (mkAgent [msgTok 0, msgTok 900001])).memory
          = some mem2 ∧
      mem2.create_session_summary
          = (mkMem [msgTok 0, msgTok 900001]).create_session_summary ∧
      mem2.update_session_summary_after_run
          = (mkMem
              [msgTok 0, msgTok 900001]).update_session_summary_after_run ∧
      (mem2.summarizer = (mkMem [msgTok 0, msgTok 900001]).summarizer ∨
        ((mkMem [msgTok 0, msgTok 900001]).summarizer = none ∧
          mem2.summarizer = some dNone)) :=
  ⟨(claim_C9_amended_frame dNone (mkAgent [msgTok 0, msgTok 900001])).1,
   (claim_C9_amended_frame dNone
       (mkAgent [msgTok 0, msgTok 900001])).2.2.2
     (mkMem [msgTok 0, msgTok 900001]) rfl⟩

/-- C10: a message whose metrics dict is absent or lacks the
`'total_tokens'` key contributes exactly zero tokens everywhere the routine
counts tokens — in the total, in the candidate-selection accumulation, and
in the remaining total — so a conversation of such messages never triggers
summarization, and such a message is always swept into the candidate set
while selection is still running, regardless of its content. -/
theorem claim_C10_missing_metrics_zero :
    (∀ r c, msgTokens { role := r, content := c, metrics := none } = 0) ∧
    (∀ r c kvs, kvs.lookup "total_tokens" = none →
      msgTokens { role := r, content := c, metrics := some kvs } = 0) ∧
    (∀ m msgs, msgTokens m = 0 →
      totalTokens (m :: msgs) = totalTokens msgs) ∧
    (∀ t m rest acc, msgTokens m = 0 → acc ≤ t →
      selectCandidates t (m :: rest) acc
        = m :: selectCandidates t rest acc) ∧
    (∀ d fuel mem, (∀ m ∈ mem.messages, msgTokens m = 0) →
      manageFuel d fuel mem = mem) := by
  refine ⟨fun r c => rfl, fun r c kvs h => ?_, fun m msgs h => ?_,
    fun t m rest acc h hle => ?_, fun d fuel mem h => ?_⟩
  · simp [msgTokens, h]
  · rw [totalTokens_cons, h, Nat.zero_add]
  · simp only [selectCandidates]
    rw [h, Nat.add_zero, if_pos hle]
  · have hz : totalTokens mem.messages = 0 := by
      refine List.sum_eq_zero ?_
      intro x hx
      obtain ⟨m, hm, rfl⟩ := List.mem_map.mp hx
      exact h m hm
    exact manageFuel_no_op d fuel mem (by omega)

/-- Witness for C10: a metrics-less message and a message without the
`'total_tokens'` key both count as zero; the metrics-less message is swept
past a huge message; a conversation of metrics-less messages is a no-op. -/
theorem claim_C10_witness :
    msgTokens mNone = 0 ∧
    msgTokens
        { role := "user", content := "m",
          metrics := some [("prompt_tokens", 5)] } = 0 ∧
    totalTokens (mNone :: [msgTok 7]) = totalTokens [msgTok 7] ∧
    selectCandidates 3 (mNone :: [msgTok 999999]) 0
        = mNone :: selectCandidates 3 [msgTok 999999] 0 ∧
    manageFuel dNone 2 (mkMem [mNone]) = mkMem [mNone] :=
  ⟨claim_C10_missing_metrics_zero.1 "user" "m",
   claim_C10_missing_metrics_zero.2.1 "user" "m" [("prompt_tokens", 5)]
     (by decide),
   claim_C10_missing_metrics_zero.2.2.1 mNone [msgTok 7] (by decide),
   claim_C10_missing_metrics_zero.2.2.2.1 3 mNone [msgTok 999999] 0
     (by decide) (by decide),
   claim_C10_missing_metrics_zero.2.2.2.2 dNone 2 (mkMem [mNone])
     (by decide)⟩
